import Mathlib

/-!
Verification development for the PackageLoader program (src/PackageLoader.py).
The Python code is shallowly embedded: Python strings become lists of
characters, the subprocess layer becomes an explicit outcome datatype, the
Qt widget fields touched by the orchestration logic become a record that the
modelled methods transform, and the regular-expression engine is an abstract
parameter.  Every definition mirrors the control flow of the corresponding
Python function.
-/

namespace PkgLoader

/-- Python strings are modelled as their lists of characters (code points).
Python compares strings lexicographically by code point, which coincides with
the linear order on lists of characters. -/
abbrev Str := List Char

/-- Whitespace characters removed by str.strip (the ASCII whitespace class:
space, tab, newline, carriage return, vertical tab, form feed). -/
def isPySpace (c : Char) : Bool :=
  c = ' ' || c = '\t' || c = '\n' || c = '\r' || c = Char.ofNat 11 || c = Char.ofNat 12

/-- Model of str.strip(): drop whitespace from both ends. -/
def pyStrip (s : Str) : Str :=
  ((s.dropWhile isPySpace).reverse.dropWhile isPySpace).reverse

/-- Helper for splitNl, accumulating the current field in reverse. -/
def splitNlAux : Str → Str → List Str
  | [], acc => [acc.reverse]
  | c :: cs, acc =>
    if c = '\n' then acc.reverse :: splitNlAux cs [] else splitNlAux cs (c :: acc)

/-- Model of s.split with a newline separator: Python returns the list of
fields between separators, with an empty string for an empty input. -/
def splitNl (s : Str) : List Str := splitNlAux s []

/-- Helper for removeAll: the fuel argument bounds the number of characters
still to be consumed, so the recursion is structural (each step consumes at
least one character, hence fuel equal to the length of the input suffices). -/
def removeAllAux (pat : Str) : Nat → Str → Str
  | _, [] => []
  | 0, s => s
  | Nat.succ fuel, c :: cs =>
    if pat.isPrefixOf (c :: cs) && !pat.isEmpty then
      removeAllAux pat fuel (cs.drop (pat.length - 1))
    else
      c :: removeAllAux pat fuel cs

/-- Model of s.replace(pat, empty string): remove every non-overlapping
occurrence of pat, scanning left to right.  (Replacing an empty pattern by an
empty string is the identity in Python; the emptiness guard reproduces that.) -/
def removeAll (pat : Str) (s : Str) : Str := removeAllAux pat s.length s

/-- Substring test, modelling the Python expression pat in s. -/
def containsSub (pat : Str) : Str → Bool
  | [] => pat.isEmpty
  | c :: cs => pat.isPrefixOf (c :: cs) || containsSub pat cs

/-- Literal line tag produced by pm list packages output. -/
def packageTag : Str := "package:".data

/-- Captured result of one external command, the fields of a completed
subprocess.run call with capture_output=True and text=True. -/
structure CommandResult where
  returncode : Int
  stdout : Str
  stderr : Str
deriving DecidableEq

/-- Outcome of attempting an external command: normal completion, a
subprocess.TimeoutExpired, or any other exception raised by the call. -/
inductive ExecOutcome where
  | ok (r : CommandResult)
  | timeout
  | exc (msg : Str)
deriving DecidableEq

/-- Model of the package dictionaries built by PackageWorker.run:
name, is_system and selected fields. -/
structure PackageRecord where
  name : Str
  is_system : Bool
  selected : Bool
deriving DecidableEq

/-- Names extracted from one command output, as in PackageWorker.run:
strip the output, split into lines, keep lines starting with the package tag
and remove every occurrence of the tag from them. -/
def parseNames (out : Str) : List Str :=
  (splitNl (pyStrip out)).filterMap (fun line =>
    if packageTag.isPrefixOf line then some (removeAll packageTag line) else none)

/-- Errors PackageWorker.run can report through error_occurred. -/
inductive LoadError where
  | commandError (stderr : Str)
  | timeoutError
  | otherError (msg : Str)
deriving DecidableEq

/-- Terminal outcome of PackageWorker.run: either package_loaded with the
final list, or error_occurred. -/
inductive LoadOutcome where
  | loaded (pkgs : List PackageRecord)
  | failed (e : LoadError)
deriving DecidableEq

/-- Sorting relation used to model packages.sort(key=lambda x: x[name]):
compare records by name only.  Python list.sort is a stable ascending sort,
and a stable sort is uniquely determined by the key order, so insertion sort
computes exactly its result. -/
def recLe (a b : PackageRecord) : Prop := a.name ≤ b.name

instance : DecidableRel recLe := fun a b => inferInstanceAs (Decidable (a.name ≤ b.name))

instance : IsTotal PackageRecord recLe := ⟨fun a b => le_total a.name b.name⟩

instance : IsTrans PackageRecord recLe := ⟨fun _ _ _ h1 h2 => le_trans h1 h2⟩

/-- Model of PackageWorker.run (src/PackageLoader.py lines 27 to 74).
The first command lists all packages; a non-zero exit aborts with the stderr
message, a timeout or any exception aborts through the except clauses.  The
second command lists system packages; a timeout or exception also aborts (it
is raised inside the same try block), but a non-zero exit merely degrades to
an empty system set.  Records are built from the lines of the first command
only, tagged by membership in the system set, then sorted by name. -/
def packageWorkerRun (allRes sysRes : ExecOutcome) : LoadOutcome :=
  match allRes with
  | ExecOutcome.timeout => LoadOutcome.failed LoadError.timeoutError
  | ExecOutcome.exc m => LoadOutcome.failed (LoadError.otherError m)
  | ExecOutcome.ok r =>
    if r.returncode ≠ 0 then LoadOutcome.failed (LoadError.commandError r.stderr)
    else
      match sysRes with
      | ExecOutcome.timeout => LoadOutcome.failed LoadError.timeoutError
      | ExecOutcome.exc m => LoadOutcome.failed (LoadError.otherError m)
      | ExecOutcome.ok s =>
        let system_packages : List Str :=
          if s.returncode = 0 then parseNames s.stdout else []
        let packages : List PackageRecord :=
          (parseNames r.stdout).map
            (fun n => { name := n, is_system := system_packages.contains n, selected := false })
        LoadOutcome.loaded (List.insertionSort recLe packages)

/-- Claim C3, counterexample: when the list-all-packages command itself emits
the same package line twice, the loader emits that name twice, so the
inventory does not contain each package name exactly once. -/
theorem loader_unique_names_cex :
    packageWorkerRun (ExecOutcome.ok ⟨0, ("package:a\npackage:a").data, []⟩)
        (ExecOutcome.ok ⟨0, [], []⟩) =
      LoadOutcome.loaded
        [{ name := "a".data, is_system := false, selected := false },
         { name := "a".data, is_system := false, selected := false }] ∧
    ¬ (([{ name := "a".data, is_system := false, selected := false },
         { name := "a".data, is_system := false, selected := false }] : List PackageRecord).map
          PackageRecord.name).Nodup := by
  constructor
  · decide
  · decide

/-- Sorting a list of records built from distinct names yields names that are
sorted, duplicate-free, and a permutation of the input names. -/
theorem insertionSort_names_props (names : List Str) (mk : Str → PackageRecord)
    (hmk : ∀ n, (mk n).name = n) (hnd : names.Nodup) :
    ((List.insertionSort recLe (names.map mk)).map PackageRecord.name).Sorted (· ≤ ·) ∧
    ((List.insertionSort recLe (names.map mk)).map PackageRecord.name).Nodup ∧
    ((List.insertionSort recLe (names.map mk)).map PackageRecord.name).Perm names := by
  have h2 : (names.map mk).map PackageRecord.name = names := by
    rw [List.map_map]
    rw [show PackageRecord.name ∘ mk = fun n => n from funext hmk]
    exact List.map_id' names
  have hperm := (List.perm_insertionSort recLe (names.map mk)).map PackageRecord.name
  rw [h2] at hperm
  exact ⟨List.pairwise_map.mpr (List.sorted_insertionSort recLe _), hperm.symm.nodup hnd, hperm⟩

/-- Claim C3, amended: whenever the list-all-packages output lists each
package name at most once, the emitted inventory is sorted ascending by name
(case-sensitive code-point order), contains each name exactly once, and its
names are exactly the names parsed from the list-all-packages command, so the
list-system-packages command can never contribute a duplicate entry. -/
theorem loader_sorted_unique (all sys : CommandResult)
    (hall : all.returncode = 0) (hnd : (parseNames all.stdout).Nodup) :
    ∃ pkgs, packageWorkerRun (ExecOutcome.ok all) (ExecOutcome.ok sys) = LoadOutcome.loaded pkgs ∧
      (pkgs.map PackageRecord.name).Sorted (· ≤ ·) ∧
      (pkgs.map PackageRecord.name).Nodup ∧
      (pkgs.map PackageRecord.name).Perm (parseNames all.stdout) := by
  have hne : ¬ all.returncode ≠ 0 := by simp [hall]
  obtain ⟨hs, hn, hp⟩ := insertionSort_names_props (parseNames all.stdout)
    (fun n => { name := n,
                is_system := (if sys.returncode = 0 then parseNames sys.stdout else []).contains n,
                selected := false })
    (fun _ => rfl) hnd
  refine ⟨_, ?_, hs, hn, hp⟩
  simp only [packageWorkerRun]
  rw [if_neg hne]

/-- Witness for loader_sorted_unique at a concrete pair of command outputs. -/
theorem loader_sorted_unique_witness :
    (0 : Int) = 0 ∧ (parseNames ("package:b\npackage:a").data).Nodup ∧
    ∃ pkgs,
      packageWorkerRun (ExecOutcome.ok ⟨0, ("package:b\npackage:a").data, []⟩)
          (ExecOutcome.ok ⟨1, [], []⟩) = LoadOutcome.loaded pkgs ∧
      (pkgs.map PackageRecord.name).Sorted (· ≤ ·) ∧
      (pkgs.map PackageRecord.name).Nodup ∧
      (pkgs.map PackageRecord.name).Perm (parseNames ("package:b\npackage:a").data) :=
  ⟨rfl, by decide, loader_sorted_unique ⟨0, ("package:b\npackage:a").data, []⟩ ⟨1, [], []⟩ rfl (by decide)⟩

/-- Operations handled by PackageOperationWorker; every call site passes one
of these four literal strings. -/
inductive Operation where
  | uninstall
  | disable
  | enable
  | reset
deriving DecidableEq

/-- Fixed marker: some uninstall failures are reported through exit code 0
with this word in stdout. -/
def failureMarker : Str := "Failure".data

/-- Classification of one processed item (PackageOperationWorker.run line 114
plus the per-item except clause): a completed command fails on a non-zero
exit status or, for uninstall, on the marker occurring in stdout; a timeout
or any other exception also appends the package to the failed list. -/
def itemFailed (op : Operation) (res : ExecOutcome) : Bool :=
  match res with
  | ExecOutcome.ok r =>
    r.returncode ≠ 0 || (op = Operation.uninstall && containsSub failureMarker r.stdout)
  | ExecOutcome.timeout => true
  | ExecOutcome.exc _ => true

/-- Signals PackageOperationWorker.run emits, in order.  The progress
constructor stands for the progress_updated signal issued before dispatching
item i (the code renders the fraction i over total as a truncated percentage,
which is presentation only); done stands for the final progress_updated
signal carrying 100 and the completion label; completed carries the failed
list exactly as operation_completed does. -/
inductive OpEvent where
  | progress (index : Nat) (pkg : Str)
  | done
  | completed (failed : List Str)
deriving DecidableEq

/-- Observable behaviour of one PackageOperationWorker.run: the failed list,
the emitted signal sequence, and how many items were dispatched. -/
structure OpRun where
  failed_packages : List Str
  events : List OpEvent
  dispatched : Nat
deriving DecidableEq

/-- Value of the cooperative _is_cancelled flag when it is checked before
item i: a cancellation requested after k items have been dispatched makes the
flag read true from check k onwards; Option.none models a run in which
cancel() is never called. -/
def cancelFlag (cancelAt : Option Nat) (i : Nat) : Bool :=
  match cancelAt with
  | Option.none => false
  | some k => k ≤ i

/-- Loop of PackageOperationWorker.run: check the flag, emit the progress
signal, execute the operation command for the item (exec i is its outcome),
classify it, then continue with the next item. -/
def opWorkerRunAux (op : Operation) (exec : Nat → ExecOutcome) (cancelAt : Option Nat) :
    List Str → Nat → List Str → List Str × List OpEvent × Nat
  | [], i, failed => (failed, [], i)
  | pkg :: rest, i, failed =>
    if cancelFlag cancelAt i then (failed, [], i)
    else
      let failed2 := if itemFailed op (exec i) then failed ++ [pkg] else failed
      let r := opWorkerRunAux op exec cancelAt rest (i + 1) failed2
      (r.1, OpEvent.progress i pkg :: r.2.1, r.2.2)

/-- Model of PackageOperationWorker.run (src/PackageLoader.py lines 90 to
126): after the loop the final done progress signal and operation_completed
are emitted unconditionally, for a cancelled and for a completed run alike. -/
def opWorkerRun (op : Operation) (targets : List Str) (exec : Nat → ExecOutcome)
    (cancelAt : Option Nat) : OpRun :=
  let r := opWorkerRunAux op exec cancelAt targets 0 []
  { failed_packages := r.1
    events := r.2.1 ++ [OpEvent.done, OpEvent.completed r.1]
    dispatched := r.2.2 }

/-- Failed names of an indexed slice of the batch. -/
def failedOn (op : Operation) (exec : Nat → ExecOutcome) (items : List (Nat × Str)) : List Str :=
  (items.filter (fun p => itemFailed op (exec p.1))).map Prod.snd

theorem opWorkerRunAux_none (op : Operation) (exec : Nat → ExecOutcome) :
    ∀ (targets : List Str) (i : Nat) (failed : List Str),
    opWorkerRunAux op exec Option.none targets i failed =
      (failed ++ failedOn op exec (List.enumFrom i targets),
       (List.enumFrom i targets).map (fun p => OpEvent.progress p.1 p.2),
       i + targets.length) := by
  intro targets
  induction targets with
  | nil =>
    intro i failed
    simp [opWorkerRunAux, failedOn]
  | cons pkg rest ih =>
    intro i failed
    simp only [opWorkerRunAux, cancelFlag]
    rw [ih]
    simp only [List.enumFrom_cons, failedOn, List.filter_cons, List.length_cons]
    cases hF : itemFailed op (exec i) <;>
      simp [hF, List.append_assoc] <;> omega

theorem opWorkerRunAux_cancel (op : Operation) (exec : Nat → ExecOutcome) (k : Nat) :
    ∀ (targets : List Str) (i : Nat) (failed : List Str),
    opWorkerRunAux op exec (some k) targets i failed =
      (failed ++ failedOn op exec (List.enumFrom i (targets.take (k - i))),
       (List.enumFrom i (targets.take (k - i))).map (fun p => OpEvent.progress p.1 p.2),
       i + min (k - i) targets.length) := by
  intro targets
  induction targets with
  | nil =>
    intro i failed
    simp [opWorkerRunAux, failedOn]
  | cons pkg rest ih =>
    intro i failed
    by_cases hik : k ≤ i
    · have h0 : k - i = 0 := by omega
      simp [opWorkerRunAux, cancelFlag, hik, h0, failedOn]
    · have hk : k - i = (k - (i + 1)) + 1 := by omega
      simp only [opWorkerRunAux, cancelFlag]
      rw [if_neg (by simpa using hik)]
      rw [ih]
      rw [hk]
      simp only [List.take_succ_cons, List.enumFrom_cons, failedOn, List.filter_cons,
        List.length_cons]
      cases hF : itemFailed op (exec i) <;>
        simp [hF, List.append_assoc] <;> omega

/-- Claim C2, amended: a cancellation that becomes visible after k of n items
have been dispatched stops the loop before any later item starts (dispatched
is the minimum of k and n), and the run then terminates with exactly the
failed set accumulated over the first k items — but it reports this through
the very same final signals as an ordinary completion (the done progress
signal followed by operation_completed); no distinct Cancelled report
exists. -/
theorem opWorker_cancelled (op : Operation) (targets : List Str)
    (exec : Nat → ExecOutcome) (k : Nat) :
    opWorkerRun op targets exec (some k) =
      { failed_packages := failedOn op exec ((targets.take k).enum),
        events :=
          ((targets.take k).enum).map (fun p => OpEvent.progress p.1 p.2)
            ++ [OpEvent.done, OpEvent.completed (failedOn op exec ((targets.take k).enum))],
        dispatched := min k targets.length } := by
  have h := opWorkerRunAux_cancel op exec k targets 0 []
  simp only [Nat.sub_zero] at h
  simp [opWorkerRun, h, List.enum]

/-- Claim C2, counterexample: a run cancelled after its single item was
dispatched is observationally identical to the never-cancelled run over the
same input — the claimed Cancelled report, distinct from ordinary completion,
does not exist. -/
theorem opWorker_cancel_report_cex :
    opWorkerRun Operation.enable ["a".data] (fun _ => ExecOutcome.ok ⟨0, [], []⟩) (some 1) =
      opWorkerRun Operation.enable ["a".data] (fun _ => ExecOutcome.ok ⟨0, [], []⟩)
        Option.none := by
  decide

theorem opWorker_never_cancelled (op : Operation) (targets : List Str)
    (exec : Nat → ExecOutcome) :
    opWorkerRun op targets exec Option.none =
      { failed_packages := failedOn op exec targets.enum,
        events :=
          (targets.enum).map (fun p => OpEvent.progress p.1 p.2)
            ++ [OpEvent.done, OpEvent.completed (failedOn op exec targets.enum)],
        dispatched := targets.length } := by
  have h := opWorkerRunAux_none op exec targets 0 []
  simp [opWorkerRun, h, List.enum]

/-- Claim C4: in a never-cancelled run every item is dispatched (a failure
never aborts the loop), and an item whose command completed with a result is
in the failed list exactly when its exit status is non-zero or the operation
is uninstall and stdout contains the fixed failure marker. -/
theorem opWorker_item_failure_classification (op : Operation) (targets : List Str)
    (exec : Nat → ExecOutcome) (hnd : targets.Nodup) :
    (opWorkerRun op targets exec Option.none).dispatched = targets.length ∧
    ∀ (i : Nat) (hi : i < targets.length) (r : CommandResult), exec i = ExecOutcome.ok r →
      (targets[i] ∈ (opWorkerRun op targets exec Option.none).failed_packages ↔
        (r.returncode ≠ 0 ∨
          (op = Operation.uninstall ∧ containsSub failureMarker r.stdout = true))) := by
  have hrun := opWorker_never_cancelled op targets exec
  constructor
  · rw [hrun]
  · intro i hi r hr
    rw [hrun]
    have hclass : itemFailed op (exec i) = true ↔
        (r.returncode ≠ 0 ∨
          (op = Operation.uninstall ∧ containsSub failureMarker r.stdout = true)) := by
      rw [hr]
      simp [itemFailed]
    rw [← hclass]
    constructor
    · intro hmem
      simp only [failedOn, List.mem_map, List.mem_filter] at hmem
      obtain ⟨⟨j, y⟩, ⟨hin, hp⟩, hyx⟩ := hmem
      have hj : targets[j]? = some y := List.mem_enum_iff_getElem?.mp hin
      have hij : i = j := by
        apply List.getElem?_inj hi hnd
        rw [hj, List.getElem?_eq_getElem hi]
        simp only at hyx
        rw [hyx]
      rw [hij]
      simpa using hp
    · intro hfail
      simp only [failedOn, List.mem_map, List.mem_filter]
      refine ⟨(i, targets[i]), ⟨?_, by simpa using hfail⟩, rfl⟩
      exact List.mem_enum_iff_getElem?.mpr (by simp [List.getElem?_eq_getElem hi])

/-- Executor used by the witness: item 0 succeeds, item 1 exits 1. -/
def execC4 : Nat → ExecOutcome :=
  fun i => if i = 0 then ExecOutcome.ok ⟨0, [], []⟩ else ExecOutcome.ok ⟨1, [], []⟩

/-- Witness for opWorker_item_failure_classification at a concrete batch. -/
theorem opWorker_item_failure_classification_witness :
    (["a".data, "x".data] : List Str).Nodup ∧
    execC4 1 = ExecOutcome.ok ⟨1, [], []⟩ ∧
    (("x".data : Str) ∈
        (opWorkerRun Operation.uninstall ["a".data, "x".data] execC4
          Option.none).failed_packages ↔
      ((1 : Int) ≠ 0 ∨
        (Operation.uninstall = Operation.uninstall ∧
          containsSub failureMarker [] = true))) := by
  refine ⟨by decide, rfl, ?_⟩
  have h := (opWorker_item_failure_classification Operation.uninstall
    ["a".data, "x".data] execC4 (by decide)).2 1 (by decide) ⟨1, [], []⟩ rfl
  simpa using h

/-- Values the saved_current_row attribute takes in Python: it is initialised
to the integer -1 (line 905) and later set to None or to a package-name
string by save_selected_items. -/
inductive SavedRow where
  | intVal (n : Int)
  | noneVal
  | nameVal (s : Str)
deriving DecidableEq

/-- Qt check states delivered to on_checkbox_changed. -/
inductive CheckState where
  | unchecked
  | partiallyChecked
  | checked
deriving DecidableEq

/-- Fields of PackageListWidget touched by the load, search, selection and
reconciliation logic.  table_rows is the Package Name column per table row,
selected_rows the row-selection model, current_row the current cell row (-1
when none), highlighted_rows the rows whose name cell carries the search
highlight, scroll_value the vertical scroll bar. -/
structure WidgetState where
  packages : List PackageRecord
  filtered_packages : List PackageRecord
  package_dict : List (Str × PackageRecord)
  search_results : List Int
  current_search_index : Int
  current_row : Int
  table_rows : List Str
  highlighted_rows : List Int
  selected_rows : List Int
  scroll_value : Int
  saved_scroll_position : Int
  saved_selected_packages : List Str
  saved_current_row : SavedRow
  is_batch_updating : Bool
deriving DecidableEq

/-- Initial attribute values from PackageListWidget.__init__ (lines 888 to
906); the table starts empty. -/
def initWidget : WidgetState :=
  { packages := [], filtered_packages := [], package_dict := [],
    search_results := [], current_search_index := -1, current_row := -1,
    table_rows := [], highlighted_rows := [], selected_rows := [],
    scroll_value := 0, saved_scroll_position := 0,
    saved_selected_packages := [], saved_current_row := SavedRow.intVal (-1),
    is_batch_updating := false }

/-- Model of selecting a row programmatically (table selectRow, and
setCurrentCell which under ExtendedSelection with no keyboard modifier also
selects the row): the selection becomes that row and the row becomes
current.  The accompanying scrollToItem only scrolls the row into view; no
claim reads the scroll value before a later restore overwrites it, so it is
not modelled further. -/
def selectRowState (s : WidgetState) (row : Int) : WidgetState :=
  { s with selected_rows := [row], current_row := row }

/-- Model of clear_packages (lines 1717 to 1728): setRowCount(0) removes all
rows, which also drops the table selection and the current cell, and every
cached collection is reset.  The cleared search edit and the two labels are
presentation. -/
def clear_packages (s : WidgetState) : WidgetState :=
  { s with table_rows := [], selected_rows := [], current_row := -1,
           packages := [], filtered_packages := [], package_dict := [],
           search_results := [], current_search_index := -1,
           highlighted_rows := [] }

/-- Model of display_packages (lines 1514 to 1561): the table is rebuilt from
filtered_packages and every name cell gets the plain white background. -/
def display_packages (s : WidgetState) : WidgetState :=
  { s with table_rows := s.filtered_packages.map PackageRecord.name,
           highlighted_rows := [] }

/-- Model of the package_to_row dictionary built by restore_selected_items
(lines 1153 to 1157): rows are scanned in order and a later row with the same
name overwrites an earlier one. -/
def packageToRow (rows : List Str) (n : Str) : Option Int :=
  rows.enum.foldl
    (fun acc p => if p.2 = n then some (Int.ofNat p.1) else acc) Option.none

/-- Model of restore_selected_items (lines 1147 to 1171).  The early return
fires only when the saved list is empty and the saved row is exactly None.
Afterwards the selection is cleared and each saved name still present in the
table is re-selected; finally, a truthy saved focus name present in the table
is made current.  An integer saved value (the initial -1) is truthy but can
never equal a string key of the map, so the focus branch skips it. -/
def restore_selected_items (s : WidgetState) : WidgetState :=
  if s.saved_selected_packages = [] ∧ s.saved_current_row = SavedRow.noneVal then s
  else
    let s1 := { s with selected_rows := [] }
    let s2 := s.saved_selected_packages.foldl
      (fun st n =>
        match packageToRow s.table_rows n with
        | some row => selectRowState st row
        | Option.none => st) s1
    match s.saved_current_row with
    | SavedRow.nameVal n =>
      if n ≠ [] then
        match packageToRow s.table_rows n with
        | some row => selectRowState s2 row
        | Option.none => s2
      else s2
    | SavedRow.intVal _ => s2
    | SavedRow.noneVal => s2

/-- Model of save_scroll_position (lines 1111 to 1114). -/
def save_scroll_position (s : WidgetState) : WidgetState :=
  { s with saved_scroll_position := s.scroll_value }

/-- Model of restore_scroll_position (lines 1116 to 1119). -/
def restore_scroll_position (s : WidgetState) : WidgetState :=
  { s with scroll_value := s.saved_scroll_position }

/-- Model of on_packages_loaded (lines 1493 to 1506): store the list, copy it
as the filtered list, rebuild the name dictionary (an association list; a
Python dict keeps the last record for a duplicated name, but duplicated names
parse to identical records, so lookups agree), display, then run the deferred
restore_selected_items. -/
def on_packages_loaded (s : WidgetState) (pkgs : List PackageRecord) : WidgetState :=
  let s1 := { s with packages := pkgs, filtered_packages := pkgs,
                     package_dict := pkgs.map (fun p => (p.name, p)) }
  restore_selected_items (display_packages s1)

/-- Model of one full load_packages run (lines 1480 to 1512): the widget is
cleared before the worker starts; a successful worker ends in
on_packages_loaded, while error_occurred only shows a dialog and hides the
progress bar, leaving the cleared state in place. -/
def load_packages_run (s : WidgetState) (allRes sysRes : ExecOutcome) : WidgetState :=
  match packageWorkerRun allRes sysRes with
  | LoadOutcome.loaded pkgs => on_packages_loaded (clear_packages s) pkgs
  | LoadOutcome.failed _ => clear_packages s

/-- Widget holding a one-package inventory, used as the concrete prior state
in counterexamples. -/
def wsLoaded : WidgetState :=
  { initWidget with
    packages := [{ name := "a".data, is_system := false, selected := false }],
    filtered_packages := [{ name := "a".data, is_system := false, selected := false }],
    package_dict := [("a".data, { name := "a".data, is_system := false, selected := false })],
    table_rows := ["a".data] }

/-- Claim C1, counterexample: a load that fails with a timeout leaves the
inventory empty, not equal to the previously loaded inventory — the prior
state was discarded when the load began. -/
theorem failed_load_unchanged_cex :
    (load_packages_run wsLoaded ExecOutcome.timeout (ExecOutcome.ok ⟨0, [], []⟩)).packages = []
      ∧ wsLoaded.packages ≠ []
      ∧ (load_packages_run wsLoaded ExecOutcome.timeout
          (ExecOutcome.ok ⟨0, [], []⟩)).packages ≠ wsLoaded.packages := by
  refine ⟨by decide, by decide, by decide⟩

/-- Claim C1, amended: a failing load performs no partial replacement — the
widget is left exactly in the state produced by clear_packages when the load
began (empty package list, empty name index, no displayed rows) — but the
previously loaded Inventory is not preserved: it is discarded at load start,
so a failed load ends with an empty inventory rather than the prior one. -/
theorem failed_load_leaves_cleared_state (s : WidgetState) (allRes sysRes : ExecOutcome)
    (e : LoadError) (h : packageWorkerRun allRes sysRes = LoadOutcome.failed e) :
    load_packages_run s allRes sysRes = clear_packages s := by
  simp [load_packages_run, h]

/-- Witness for failed_load_leaves_cleared_state at a concrete failing load. -/
theorem failed_load_leaves_cleared_state_witness :
    packageWorkerRun ExecOutcome.timeout (ExecOutcome.ok ⟨0, [], []⟩) =
        LoadOutcome.failed LoadError.timeoutError ∧
    load_packages_run wsLoaded ExecOutcome.timeout (ExecOutcome.ok ⟨0, [], []⟩) =
      clear_packages wsLoaded :=
  ⟨by decide,
   failed_load_leaves_cleared_state wsLoaded ExecOutcome.timeout (ExecOutcome.ok ⟨0, [], []⟩)
     LoadError.timeoutError (by decide)⟩

/-- Python min over a list of ints; the code only applies it to nonempty
lists, where it returns the least element. -/
def pyMin : List Int → Int
  | [] => 0
  | x :: xs => xs.foldl min x

/-- Python max over a list of ints; the inline fallback in find_next yields
-1 for an empty list, which the definition mirrors. -/
def pyMax : List Int → Int
  | [] => -1
  | x :: xs => xs.foldl max x

theorem foldl_min_le_init : ∀ (xs : List Int) (a : Int), xs.foldl min a ≤ a
  | [], a => le_refl a
  | x :: xs, a => le_trans (foldl_min_le_init xs (min a x)) (min_le_left a x)

theorem foldl_min_le_mem : ∀ (xs : List Int) (a r : Int), r ∈ xs → xs.foldl min a ≤ r := by
  intro xs
  induction xs with
  | nil =>
    intro a r h
    simp at h
  | cons x xs ih =>
    intro a r h
    rcases List.mem_cons.mp h with h1 | h2
    · subst h1
      exact le_trans (foldl_min_le_init xs (min a r)) (min_le_right a r)
    · exact ih (min a x) r h2

theorem foldl_min_mem : ∀ (xs : List Int) (a : Int), xs.foldl min a = a ∨ xs.foldl min a ∈ xs := by
  intro xs
  induction xs with
  | nil =>
    intro a
    exact Or.inl rfl
  | cons x xs ih =>
    intro a
    rcases ih (min a x) with h | h
    · rcases min_choice a x with hm | hm
      · exact Or.inl (by rw [show List.foldl min a (x :: xs) = List.foldl min (min a x) xs from rfl, h, hm])
      · refine Or.inr ?_
        rw [show List.foldl min a (x :: xs) = List.foldl min (min a x) xs from rfl, h, hm]
        exact List.mem_cons_self x xs
    · exact Or.inr (List.mem_cons_of_mem x h)

theorem pyMin_mem {l : List Int} (h : l ≠ []) : pyMin l ∈ l := by
  cases l with
  | nil => exact absurd rfl h
  | cons x xs =>
    rcases foldl_min_mem xs x with h1 | h1
    · rw [show pyMin (x :: xs) = List.foldl min x xs from rfl, h1]
      exact List.mem_cons_self x xs
    · exact List.mem_cons_of_mem x h1

theorem pyMin_le {l : List Int} (r : Int) (hr : r ∈ l) : pyMin l ≤ r := by
  cases l with
  | nil => simp at hr
  | cons x xs =>
    rcases List.mem_cons.mp hr with h1 | h2
    · rw [h1]
      exact foldl_min_le_init xs x
    · exact foldl_min_le_mem xs x r h2

theorem foldl_max_init_le : ∀ (xs : List Int) (a : Int), a ≤ xs.foldl max a
  | [], a => le_refl a
  | x :: xs, a => le_trans (le_max_left a x) (foldl_max_init_le xs (max a x))

theorem foldl_max_mem_le : ∀ (xs : List Int) (a r : Int), r ∈ xs → r ≤ xs.foldl max a := by
  intro xs
  induction xs with
  | nil =>
    intro a r h
    simp at h
  | cons x xs ih =>
    intro a r h
    rcases List.mem_cons.mp h with h1 | h2
    · subst h1
      exact le_trans (le_max_right a r) (foldl_max_init_le xs (max a r))
    · exact ih (max a x) r h2

theorem foldl_max_mem : ∀ (xs : List Int) (a : Int), xs.foldl max a = a ∨ xs.foldl max a ∈ xs := by
  intro xs
  induction xs with
  | nil =>
    intro a
    exact Or.inl rfl
  | cons x xs ih =>
    intro a
    rcases ih (max a x) with h | h
    · rcases max_choice a x with hm | hm
      · exact Or.inl (by rw [show List.foldl max a (x :: xs) = List.foldl max (max a x) xs from rfl, h, hm])
      · refine Or.inr ?_
        rw [show List.foldl max a (x :: xs) = List.foldl max (max a x) xs from rfl, h, hm]
        exact List.mem_cons_self x xs
    · exact Or.inr (List.mem_cons_of_mem x h)

theorem pyMax_mem {l : List Int} (h : l ≠ []) : pyMax l ∈ l := by
  cases l with
  | nil => exact absurd rfl h
  | cons x xs =>
    rcases foldl_max_mem xs x with h1 | h1
    · rw [show pyMax (x :: xs) = List.foldl max x xs from rfl, h1]
      exact List.mem_cons_self x xs
    · exact List.mem_cons_of_mem x h1

theorem le_pyMax {l : List Int} (r : Int) (hr : r ∈ l) : r ≤ pyMax l := by
  cases l with
  | nil => simp at hr
  | cons x xs =>
    rcases List.mem_cons.mp hr with h1 | h2
    · rw [h1]
      exact foldl_max_init_le xs x
    · exact foldl_max_mem_le xs x r h2

/-- Model of find_next (lines 1424 to 1450).  With an empty match set it
returns at once.  Otherwise it collects the match rows strictly above the
current row; if any exist it moves to their minimum (recording its index in
the match list); if none exist and the current row is at least the maximum
match row it stays put; otherwise it would wrap to the first match (a branch
that is unreachable, since an empty filter forces the maximum to be at most
the current row). -/
def find_next (s : WidgetState) : WidgetState :=
  if s.search_results = [] then s
  else if s.search_results.filter (fun row => s.current_row < row) ≠ [] then
    selectRowState
      { s with current_search_index :=
          Int.ofNat (s.search_results.indexOf
            (pyMin (s.search_results.filter (fun row => s.current_row < row)))) }
      (pyMin (s.search_results.filter (fun row => s.current_row < row)))
  else if pyMax s.search_results ≤ s.current_row then s
  else
    selectRowState { s with current_search_index := 0 } (s.search_results.headD 0)

/-- Model of find_previous (lines 1452 to 1478), the mirror image: match rows
strictly below the current row, their maximum if any, otherwise a no-op when
the current row is at most the minimum match row, otherwise the (unreachable)
wrap to the last match. -/
def find_previous (s : WidgetState) : WidgetState :=
  if s.search_results = [] then s
  else if s.search_results.filter (fun row => row < s.current_row) ≠ [] then
    selectRowState
      { s with current_search_index :=
          Int.ofNat (s.search_results.indexOf
            (pyMax (s.search_results.filter (fun row => row < s.current_row)))) }
      (pyMax (s.search_results.filter (fun row => row < s.current_row)))
  else if s.current_row ≤ pyMin s.search_results then s
  else
    selectRowState
      { s with current_search_index := Int.ofNat (s.search_results.length - 1) }
      (s.search_results.getLastD 0)

/-- Claim C5: with a nonempty match set, find_next moves the current position
to the smallest match position strictly greater than it whenever one exists;
when none exists (so the current position is at least the maximum match
position) the call is a no-op, and repeating it returns the same state. -/
theorem find_next_boundary (s : WidgetState) (hne : s.search_results ≠ []) :
    ((∃ r ∈ s.search_results, s.current_row < r) →
      ((find_next s).current_row ∈ s.search_results ∧
        s.current_row < (find_next s).current_row ∧
        ∀ r ∈ s.search_results, s.current_row < r → (find_next s).current_row ≤ r)) ∧
    ((∀ r ∈ s.search_results, r ≤ s.current_row) →
      (find_next s = s ∧ find_next (find_next s) = find_next s)) := by
  constructor
  · rintro ⟨r, hr, hlt⟩
    have hmemf : r ∈ s.search_results.filter (fun row => s.current_row < row) :=
      List.mem_filter.mpr ⟨hr, by simpa using hlt⟩
    have hf : s.search_results.filter (fun row => s.current_row < row) ≠ [] :=
      List.ne_nil_of_mem hmemf
    have heq : find_next s =
        selectRowState
          { s with current_search_index :=
              Int.ofNat (s.search_results.indexOf
                (pyMin (s.search_results.filter (fun row => s.current_row < row)))) }
          (pyMin (s.search_results.filter (fun row => s.current_row < row))) := by
      unfold find_next
      rw [if_neg hne, if_pos hf]
    rw [heq]
    have hpm := pyMin_mem hf
    refine ⟨(List.mem_filter.mp hpm).1, by simpa using (List.mem_filter.mp hpm).2, ?_⟩
    intro q hq hltq
    exact pyMin_le q (List.mem_filter.mpr ⟨hq, by simpa using hltq⟩)
  · intro hall
    have hf : s.search_results.filter (fun row => s.current_row < row) = [] := by
      rw [List.filter_eq_nil_iff]
      intro a ha
      simpa using not_lt.mpr (hall a ha)
    have hmax : pyMax s.search_results ≤ s.current_row := hall _ (pyMax_mem hne)
    have h1 : find_next s = s := by
      unfold find_next
      rw [if_neg hne, if_neg (by simp [hf]), if_pos hmax]
    refine ⟨h1, ?_⟩
    rw [h1]
    exact h1

/-- Navigation state from the specification scenario: matches at rows 0 and
2, current row 0. -/
def wsNav : WidgetState :=
  { initWidget with search_results := [0, 2], current_row := 0,
                    table_rows := ["a.app".data, "b.app".data, "a2.app".data] }

/-- Witness for find_next_boundary at the concrete scenario state. -/
theorem find_next_boundary_witness :
    wsNav.search_results ≠ [] ∧
    (((∃ r ∈ wsNav.search_results, wsNav.current_row < r) →
      ((find_next wsNav).current_row ∈ wsNav.search_results ∧
        wsNav.current_row < (find_next wsNav).current_row ∧
        ∀ r ∈ wsNav.search_results, wsNav.current_row < r → (find_next wsNav).current_row ≤ r)) ∧
    ((∀ r ∈ wsNav.search_results, r ≤ wsNav.current_row) →
      (find_next wsNav = wsNav ∧ find_next (find_next wsNav) = find_next wsNav))) :=
  ⟨by decide, find_next_boundary wsNav (by decide)⟩

/-- Claim C10: with an empty match set both find_next and find_previous
return immediately, leaving the whole state (in particular the current
position) unchanged, and no error path exists. -/
theorem find_nav_noop_on_empty (s : WidgetState) (h : s.search_results = []) :
    find_next s = s ∧ find_previous s = s := by
  constructor
  · unfold find_next
    rw [if_pos h]
  · unfold find_previous
    rw [if_pos h]

/-- Witness for find_nav_noop_on_empty at the initial widget state. -/
theorem find_nav_noop_on_empty_witness :
    initWidget.search_results = [] ∧
    (find_next initWidget = initWidget ∧ find_previous initWidget = initWidget) :=
  ⟨rfl, find_nav_noop_on_empty initWidget rfl⟩

/-- Dialog text shown for an empty search input (line 1375). -/
def emptySearchDialog : Str := "검색할 문자를 입력해주세요.".data

/-- Dialog text shown for a malformed pattern (line 1405): a fixed Korean
message followed by the engine error text, surfaced without translation. -/
def regexErrorDialog (e : Str) : Str := "잘못된 정규표현식입니다: ".data ++ e

/-- Model of search_packages (lines 1371 to 1405).  The regular-expression
engine is abstract: engine p either fails with the error text re.compile
raises for p, or yields the case-insensitive search predicate of the
compiled pattern.  re.compile is the first statement of the try block, so a
malformed pattern reaches the except handler before any state was touched.
On success the previous results and highlights are replaced: the match rows
are collected in display order, highlighted, the navigation index reset, and
find_next moves to the first match when one exists.  The result pairs the
new state with the dialog texts shown. -/
def search_packages (engine : Str → Except Str (Str → Bool)) (s : WidgetState)
    (text : Str) : WidgetState × List Str :=
  if pyStrip text = [] then (s, [emptySearchDialog])
  else
    match engine (pyStrip text) with
    | Except.error e => (s, [regexErrorDialog e])
    | Except.ok matcher =>
      let results :=
        ((List.range s.table_rows.length).filter (fun row =>
          match s.table_rows.get? row with
          | some n => matcher n
          | Option.none => false)).map Int.ofNat
      let s2 := { s with search_results := results, highlighted_rows := results,
                         current_search_index := -1 }
      if results ≠ [] then (find_next s2, []) else (s2, [])

/-- Claim C7: a search whose pattern the engine rejects aborts with the
engine error surfaced in the dialog, and the whole prior state — match set,
highlights and navigation index included — is left exactly as it was. -/
theorem search_error_preserves_matches (engine : Str → Except Str (Str → Bool))
    (s : WidgetState) (text : Str) (e : Str)
    (hne : pyStrip text ≠ []) (herr : engine (pyStrip text) = Except.error e) :
    search_packages engine s text = (s, [regexErrorDialog e]) := by
  unfold search_packages
  rw [if_neg hne, herr]

/-- Engine used by the search witness: it rejects every pattern. -/
def engineErr : Str → Except Str (Str → Bool) := fun _ => Except.error "bad".data

/-- Witness for search_error_preserves_matches at a concrete malformed
pattern over a state holding a prior match set. -/
theorem search_error_preserves_matches_witness :
    pyStrip "(".data ≠ [] ∧
    engineErr (pyStrip "(".data) = Except.error "bad".data ∧
    search_packages engineErr wsNav "(".data = (wsNav, [regexErrorDialog "bad".data]) :=
  ⟨by decide, rfl,
   search_error_preserves_matches engineErr wsNav "(".data "bad".data (by decide) rfl⟩

/-- Selected-field update of the package dictionary under one name (Python
mutates the single dict entry in place). -/
def dictSetSelected (d : List (Str × PackageRecord)) (n : Str) (v : Bool) :
    List (Str × PackageRecord) :=
  d.map (fun p => (p.1, if p.1 = n then { p.2 with selected := v } else p.2))

/-- Lookup in the modelled package dictionary (Python dict indexing over
string keys). -/
def dictGet (d : List (Str × PackageRecord)) (n : Str) : Option PackageRecord :=
  match d with
  | [] => Option.none
  | (k, r) :: tl => if n = k then some r else dictGet tl n

/-- Model of install_or_enable_package (lines 1279 to 1294): without a device
nothing is issued; otherwise both branches compose the same pm enable
command, fired and forgotten. -/
def install_or_enable_package (device : Option Str) (package_name : Str)
    (is_system : Bool) : List Str :=
  match device with
  | Option.none => []
  | some d =>
    if is_system then ["adb -s ".data ++ d ++ " shell pm enable ".data ++ package_name]
    else ["adb -s ".data ++ d ++ " shell pm enable ".data ++ package_name]

/-- Name under the sender checkbox: on_checkbox_changed scans the table for
the sender and keeps row -1 when it is absent; a found row reads the Package
Name cell. -/
def rowName (s : WidgetState) (row : Int) : Option Str :=
  if row < 0 then Option.none else s.table_rows.get? row.toNat

/-- Model of on_checkbox_changed (lines 1249 to 1277): during a batch update
the individual path is skipped entirely; otherwise the record under the row
name gets its selected flag set from the delivered state, and only a
transition into Qt.Checked triggers the activation command. -/
def on_checkbox_changed (device : Option Str) (s : WidgetState) (row : Int)
    (state : CheckState) : WidgetState × List Str :=
  if s.is_batch_updating then (s, [])
  else
    match rowName s row with
    | Option.none => (s, [])
    | some package_name =>
      match dictGet s.package_dict package_name with
      | Option.none => (s, [])
      | some package =>
        let s2 : WidgetState :=
          { s with
            package_dict := dictSetSelected s.package_dict package_name
              (decide (state = CheckState.checked)) }
        if state = CheckState.checked then
          (s2, install_or_enable_package device package_name package.is_system)
        else (s2, [])

/-- Claim C9: unchecking issues no device command, and a device command can
only ever be issued by a transition into the checked state. -/
theorem uncheck_issues_no_command (device : Option Str) (s : WidgetState) (row : Int)
    (state : CheckState) :
    (on_checkbox_changed device s row CheckState.unchecked).2 = [] ∧
    ((on_checkbox_changed device s row state).2 ≠ [] → state = CheckState.checked) := by
  have key : ∀ st : CheckState, st ≠ CheckState.checked →
      (on_checkbox_changed device s row st).2 = [] := by
    intro st hst
    unfold on_checkbox_changed
    split
    · rfl
    · split
      · rfl
      · split
        · rfl
        · simp [hst]
  constructor
  · exact key CheckState.unchecked (by decide)
  · intro h
    by_contra hne
    exact h (key state hne)

/-- Witness for uncheck_issues_no_command at a concrete unchecking toggle. -/
theorem uncheck_issues_no_command_witness :
    (on_checkbox_changed (some "dev".data) wsLoaded 0 CheckState.unchecked).2 = [] ∧
    ((on_checkbox_changed (some "dev".data) wsLoaded 0 CheckState.unchecked).2 ≠ [] →
      CheckState.unchecked = CheckState.checked) :=
  uncheck_issues_no_command (some "dev".data) wsLoaded 0 CheckState.unchecked

/-- Model of start_batch_update (lines 1231 to 1233). -/
def start_batch_update (s : WidgetState) : WidgetState :=
  { s with is_batch_updating := true }

/-- One iteration of the end_batch_update loop (lines 1239 to 1245): a valid
row whose name is a dictionary key gets the selected flag of its record
set. -/
def batchStep (tbl : List Str) (v : Bool) (d : List (Str × PackageRecord)) (row : Nat) :
    List (Str × PackageRecord) :=
  match tbl.get? row with
  | Option.none => d
  | some n => if (dictGet d n).isSome then dictSetSelected d n v else d

/-- Dictionary left by the end_batch_update loop over the given rows. -/
def end_batch_update_dict (tbl : List Str) (v : Bool) :
    List Nat → List (Str × PackageRecord) → List (Str × PackageRecord)
  | [], d => d
  | row :: rest, d => end_batch_update_dict tbl v rest (batchStep tbl v d row)

/-- Model of end_batch_update (lines 1235 to 1247): the dictionary records
are updated and the flag is lowered in the finally clause. -/
def end_batch_update (s : WidgetState) (row_indices : List Nat) (new_state : Bool) :
    WidgetState :=
  { s with
    package_dict := end_batch_update_dict s.table_rows new_state row_indices s.package_dict,
    is_batch_updating := false }

/-- Model of batch_update_selected_checkboxes (lines 1216 to 1229): the flag
is raised, each checkbox is set with its signals blocked — so the
on_checkbox_changed path never runs and no command is issued — and the final
end_batch_update writes the dictionary and lowers the flag. -/
def batch_update_selected_checkboxes (s : WidgetState) (row_indices : List Nat)
    (new_state : Bool) : WidgetState × List Str :=
  (end_batch_update (start_batch_update s) row_indices new_state, [])

theorem dictGet_dictSetSelected (d : List (Str × PackageRecord)) (m n : Str) (v : Bool) :
    dictGet (dictSetSelected d m v) n =
      if n = m then (dictGet d n).map (fun r => { r with selected := v })
      else dictGet d n := by
  induction d with
  | nil => by_cases h : n = m <;> simp [dictGet, dictSetSelected, h]
  | cons hd tl ih =>
    obtain ⟨k, r⟩ := hd
    simp only [dictSetSelected] at ih
    by_cases hkm : k = m
    · subst hkm
      by_cases hnk : n = k
      · subst hnk
        simp [dictGet, dictSetSelected]
      · simp [dictGet, dictSetSelected, hnk, ih]
    · by_cases hnk : n = k
      · subst hnk
        have hnm : ¬ n = m := hkm
        simp [dictGet, dictSetSelected, hnm, hkm]
      · simp [dictGet, dictSetSelected, hnk, ih]

theorem dictGet_batchStep (tbl : List Str) (v : Bool) (d : List (Str × PackageRecord))
    (row : Nat) (n : Str) :
    dictGet (batchStep tbl v d row) n = dictGet d n ∨
    dictGet (batchStep tbl v d row) n =
      (dictGet d n).map (fun r => { r with selected := v }) := by
  cases h : tbl.get? row with
  | none =>
    left
    unfold batchStep
    rw [h]
  | some m =>
    have hbs : batchStep tbl v d row =
        if (dictGet d m).isSome = true then dictSetSelected d m v else d := by
      unfold batchStep
      rw [h]
    by_cases hs : (dictGet d m).isSome = true
    · by_cases hnm : n = m
      · right
        rw [hbs, if_pos hs, dictGet_dictSetSelected, if_pos hnm]
      · left
        rw [hbs, if_pos hs, dictGet_dictSetSelected, if_neg hnm]
    · left
      rw [hbs, if_neg hs]

theorem dictGet_end_batch_or (tbl : List Str) (v : Bool) :
    ∀ (rows : List Nat) (d : List (Str × PackageRecord)) (n : Str) (r : PackageRecord),
    dictGet d n = some r →
    dictGet (end_batch_update_dict tbl v rows d) n = some r ∨
    dictGet (end_batch_update_dict tbl v rows d) n = some { r with selected := v } := by
  intro rows
  induction rows with
  | nil =>
    intro d n r h
    exact Or.inl h
  | cons row rest ih =>
    intro d n r h
    rcases dictGet_batchStep tbl v d row n with hstep | hstep
    · exact ih _ n r (by rw [hstep, h])
    · have h2 : dictGet (batchStep tbl v d row) n = some { r with selected := v } := by
        rw [hstep, h]
        rfl
      rcases ih _ n { r with selected := v } h2 with h3 | h3
      · exact Or.inr h3
      · exact Or.inr h3

theorem dictGet_end_batch_touched (tbl : List Str) (v : Bool) :
    ∀ (rows : List Nat) (d : List (Str × PackageRecord)) (row : Nat) (n : Str)
      (r : PackageRecord),
    row ∈ rows → tbl.get? row = some n → dictGet d n = some r →
    dictGet (end_batch_update_dict tbl v rows d) n = some { r with selected := v } := by
  intro rows
  induction rows with
  | nil =>
    intro d row n r h
    simp at h
  | cons row0 rest ih =>
    intro d row n r hrow hname hlk
    rcases List.mem_cons.mp hrow with heq | hmem
    · subst heq
      have hstep : dictGet (batchStep tbl v d row) n = some { r with selected := v } := by
        have hbs : batchStep tbl v d row =
            if (dictGet d n).isSome = true then dictSetSelected d n v else d := by
          unfold batchStep
          rw [hname]
        rw [hbs, if_pos (by rw [hlk]; rfl), dictGet_dictSetSelected, if_pos rfl, hlk]
        rfl
      rcases dictGet_end_batch_or tbl v rest _ n _ hstep with h3 | h3
      · exact h3
      · exact h3
    · rcases dictGet_batchStep tbl v d row0 n with hstep | hstep
      · exact ih _ row n r hmem hname (by rw [hstep]; exact hlk)
      · have h2 : dictGet (batchStep tbl v d row0) n = some { r with selected := v } := by
          rw [hstep, hlk]
          rfl
        exact ih _ row n { r with selected := v } hmem hname h2

/-- Claim C6: a batch selection update issues no per-item activation command,
sets membership for every given row whose name is in the index, and the
single-toggle side-effect path is suppressed for the whole duration of the
batch — while the flag is up, on_checkbox_changed is a no-op that issues
nothing. -/
theorem batch_update_no_side_effects (s : WidgetState) (row_indices : List Nat)
    (new_state : Bool) :
    (batch_update_selected_checkboxes s row_indices new_state).2 = [] ∧
    (∀ row ∈ row_indices, ∀ (n : Str) (r : PackageRecord),
      s.table_rows.get? row = some n → dictGet s.package_dict n = some r →
      dictGet (batch_update_selected_checkboxes s row_indices
          new_state).1.package_dict n = some { r with selected := new_state }) ∧
    (∀ (device : Option Str) (row : Int) (st : CheckState),
      on_checkbox_changed device (start_batch_update s) row st =
        (start_batch_update s, [])) := by
  refine ⟨rfl, ?_, ?_⟩
  · intro row hrow n r hname hlk
    exact dictGet_end_batch_touched s.table_rows new_state row_indices
      s.package_dict row n r hrow hname hlk
  · intro device row st
    simp [on_checkbox_changed, start_batch_update]

/-- Witness for batch_update_no_side_effects on a concrete one-row batch. -/
theorem batch_update_no_side_effects_witness :
    (batch_update_selected_checkboxes wsLoaded [0] true).2 = [] ∧
    dictGet (batch_update_selected_checkboxes wsLoaded [0] true).1.package_dict "a".data =
      some { name := "a".data, is_system := false, selected := true } :=
  ⟨(batch_update_no_side_effects wsLoaded [0] true).1,
   (batch_update_no_side_effects wsLoaded [0] true).2.1 0 (by decide) "a".data
     { name := "a".data, is_system := false, selected := false } (by decide) (by decide)⟩

/-- Model of the completion path of an uninstall batch (uninstall_selected,
lines 1578 to 1593, and on_operation_completed, lines 1673 to 1703):
uninstall_selected stores only the scroll position before the run —
save_selected_items is not called, so saved_selected_packages and
saved_current_row keep whatever an earlier disable, enable or reset run
stored.  After the worker completes, on_operation_completed reloads the list;
the reload's on_packages_loaded schedules restore_selected_items, and the
uninstall branch of on_operation_completed schedules restore_scroll_position,
which fires last. -/
def uninstall_completed_flow (s : WidgetState) (allRes sysRes : ExecOutcome) : WidgetState :=
  restore_scroll_position (load_packages_run (save_scroll_position s) allRes sysRes)

/-- Widget state before the uninstall in the failing scenario: table rows
a.app and b.app, the row of a.app selected, b.app checked for uninstall, and
a selection saved by an earlier disable, enable or reset run still pending in
saved_selected_packages and saved_current_row. -/
def wsStale : WidgetState :=
  { initWidget with
    packages :=
      [{ name := "a.app".data, is_system := false, selected := false },
       { name := "b.app".data, is_system := false, selected := true }],
    filtered_packages :=
      [{ name := "a.app".data, is_system := false, selected := false },
       { name := "b.app".data, is_system := false, selected := true }],
    package_dict :=
      [("a.app".data, { name := "a.app".data, is_system := false, selected := false }),
       ("b.app".data, { name := "b.app".data, is_system := false, selected := true })],
    table_rows := ["a.app".data, "b.app".data],
    selected_rows := [0], current_row := 0,
    saved_selected_packages := ["a.app".data],
    saved_current_row := SavedRow.nameVal "a.app".data }

/-- Claim C8, failing run: the row of a.app is selected before the uninstall
of b.app; the reload after the operation returns only a.app, and
restore_selected_items — scheduled unconditionally by on_packages_loaded —
re-selects the row of a.app from the stale saved selection, although the
specification (and the code comments at lines 1591 and 1693 to 1694) say an
uninstall restores the scroll offset only and never selection. -/
theorem uninstall_restores_selection_bug :
    wsStale.selected_rows = [0] ∧
    wsStale.table_rows.get? 0 = some "a.app".data ∧
    (uninstall_completed_flow wsStale
        (ExecOutcome.ok ⟨0, ("package:a.app").data, []⟩)
        (ExecOutcome.ok ⟨1, [], []⟩)).selected_rows = [0] ∧
    (uninstall_completed_flow wsStale
        (ExecOutcome.ok ⟨0, ("package:a.app").data, []⟩)
        (ExecOutcome.ok ⟨1, [], []⟩)).table_rows.get? 0 = some "a.app".data := by
  refine ⟨rfl, rfl, by decide, by decide⟩

end PkgLoader
